import Mathlib

/-!
# Verification of the SPWN front-end tree builder

A shallow embedding of the AST data model (`src/spwn-lang/src/ast.rs`) and the
tree-building pass (`src/spwn-lang/src/parser.rs`) of the SPWN language
front end, together with proofs about the properties claimed of them.

The external pest grammar (`spwn.pest`) is not part of the sources; where a
property depends on the shape of parse trees the grammar can produce, that
shape is modelled from the specification and marked as such.

`parser.rs` targets an older revision of the AST than the one `ast.rs`
declares (e.g. it constructs `ast::Statement::EOI`, a `Variable` without a
unary-operator field, `Expression.operators` as strings, and a `Definition`
with a `props` field).  The builder functions are embedded exactly as
`parser.rs` uses them; the `Tag` helpers and `str_content`, which exist only
in `ast.rs`, are embedded from `ast.rs`.
-/

namespace Spwn

/-- The rule-kind label of a parse-tree node.  One constructor per `Rule`
variant that `parser.rs` mentions, plus `other` for every rule kind the
builder does not recognize (the grammar's vocabulary is open from the
builder's point of view; `parser.rs` handles unknown kinds in `_` arms). -/
inductive Rule where
  | spwn
  | defn          -- `Rule::def`
  | call
  | if_stmt
  | add_obj
  | implement
  | expr
  | retrn
  | EOI
  | symbol
  | index
  | arguments
  | id
  | macroDef      -- `Rule::macro_def`
  | number
  | bool
  | dictionary
  | cmp_stmt
  | obj
  | value_literal
  | variable
  | string
  | array
  | imp           -- `Rule::import`
  | operator
  | other (name : String)
  deriving DecidableEq, Repr

/-- A parse-tree node, as produced by the external tokenizer/grammar: a
rule-kind tag (`as_rule`), the matched source text (`as_span().as_str()`),
and the ordered child nodes (`into_inner`). -/
inductive ParseNode where
  | mk (rule : Rule) (text : String) (children : List ParseNode)

def ParseNode.rule : ParseNode → Rule
  | .mk r _ _ => r

def ParseNode.text : ParseNode → String
  | .mk _ t _ => t

def ParseNode.children : ParseNode → List ParseNode
  | .mk _ _ cs => cs

/-! ## The AST, as `parser.rs` constructs it

`f64` literal payloads are modelled as exact rationals: the builder performs
no floating-point arithmetic, and no claim inspects a value where `f64`
rounding could differ from the exact decimal.  `PathBuf` is modelled as the
path string.  `CompoundStatement` (a struct holding only `statements`) is
inlined as the statement list it wraps.  `ValueLiteral::Resolved` carries a
compiler-internal `Value` type from outside the front end and is never
constructed by this layer; it is omitted. -/

mutual

inductive Expression where
  | mk (values : List Variable) (operators : List String)

inductive Variable where
  | mk (value : ValueLiteral) (path : List Path)

inductive Path where
  | Member (name : String)
  | Index (e : Expression)
  | Call (args : List Argument)

inductive Argument where
  | mk (symbol : Option String) (value : Expression)

inductive ValueLiteral where
  | ID (number : Nat) (unspecified : Bool) (class_name : String)
  | Number (n : ℚ)
  | CmpStmt (statements : List Statement)
  | Dictionary (members : List Statement)
  | Symbol (name : String)
  | Bool' (b : Bool)
  | Expression' (e : Expression)
  | Str (s : String)
  | Import (path : String)
  | Array' (items : List Expression)
  | Obj (props : List (Expression × Expression))
  | Macro' (args : List (String × Option Expression)) (body : List Statement)
  | TypeIndicator (name : String)
  | Null

inductive Statement where
  | Definition (symbol : String) (value : Expression)
      (props : List (String × List Argument))
  | Call (function : Variable)
  | If (condition : Expression) (if_body : List Statement)
      (else_body : Option (List Statement))
  | Add (e : Expression)
  | Impl (symbol : Variable) (members : List Statement)
  | Expr (e : Expression)
  | Return (e : Expression)
  | EOI

end

def Expression.values : Expression → List Variable
  | .mk vs _ => vs

def Expression.operators : Expression → List String
  | .mk _ ops => ops

def Variable.value : Variable → ValueLiteral
  | .mk v _ => v

def Variable.path : Variable → List Path
  | .mk _ p => p

def Argument.symbol : Argument → Option String
  | .mk s _ => s

def Argument.value : Argument → Expression
  | .mk _ v => v

/-! ## String and number helpers -/

/-- `ast.rs`: `str_content` — `inp.clone().replace("\"", "")`.  Replacing
every occurrence of the one-character pattern `"` with the empty string
deletes exactly the double-quote characters, scanning left to right. -/
def removeQuotes : List Char → List Char
  | [] => []
  | c :: cs => if c = '"' then removeQuotes cs else c :: removeQuotes cs

def str_content (inp : String) : String :=
  ⟨removeQuotes inp.data⟩

/-- Decimal value of a digit list, accumulated most-significant first, as
Rust's integer `FromStr` does. -/
def digitsToNat (cs : List Char) : Nat :=
  cs.foldl (fun a c => a * 10 + (c.toNat - 48)) 0

/-- Rust `u16::from_str` (used by `first_value.as_span().as_str().parse()` in
the `Rule::id` arm): an optional leading `+`, then one or more ASCII digits;
any other character, an empty digit string, or a value exceeding `u16::MAX`
(65535) is an error.  Rust rejects on overflow during accumulation, which
agrees with rejecting exactly when the full decimal value exceeds 65535. -/
def parseU16 (s : String) : Option Nat :=
  let cs := if s.data.head? = some '+' then s.data.tail else s.data
  if cs.isEmpty then none
  else if cs.all Char.isDigit then
    let v := digitsToNat cs
    if v ≤ 65535 then some v else none
  else none

/-- Split a character list at every `.` (the groups `"12.5"` →
`["12", "5"]`), used to recognize a numeric token's integral and fractional
parts. -/
def splitDot : List Char → List (List Char)
  | [] => [[]]
  | c :: rest =>
      if c = '.' then [] :: splitDot rest
      else
        match splitDot rest with
        | g :: gs => (c :: g) :: gs
        | [] => [[c]]

/-- Rust `f64::from_str` (used by the `Rule::number` arm), restricted to the
token shapes a numeric literal can take — digits with an optional fractional
part — and returning the exact rational denoted.  The builder performs no
arithmetic on the value and no claim distinguishes a rational from its `f64`
rounding. -/
def parseF64 (s : String) : Option ℚ :=
  match splitDot s.data with
  | [a] =>
      if !a.isEmpty && a.all Char.isDigit then some (digitsToNat a : ℚ)
      else none
  | [a, b] =>
      if (!a.isEmpty && a.all Char.isDigit) && (!b.isEmpty && b.all Char.isDigit) then
        some ((digitsToNat a : ℚ) + (digitsToNat b : ℚ) / ((10 : ℚ) ^ b.length))
      else none
  | _ => none

/-- Builder failure: a Rust panic (from `unwrap`/`expect`/`unreachable!`),
or an exhausted recursion budget (an artifact of the embedding; the source
recursion is bounded by the tree depth). -/
inductive Err where
  | panic (msg : String)
  | outOfFuel
  deriving DecidableEq, Repr

/-- The panic message of `Option::unwrap` on `None` (each `.next().unwrap()`
on an exhausted child iterator). -/
def unwrapMsg : String := "called Option::unwrap on a None value"

/-- The panic message of an `unreachable!()` arm. -/
def unreachableMsg : String := "internal error: entered unreachable code"

/-- The implicit null expression a bare `return` produces
(`parser.rs`, `Rule::retrn` arm, `None` case). -/
def nullExpr : Expression :=
  .mk [.mk .Null []] []

/-! ## The tree builder (`parser.rs`)

Each function takes an explicit recursion budget (`fuel`), consumed one unit
per call; the source recursion terminates because every recursive call moves
to a child node (or, for the two same-node calls `parse_value → parse_expr`
and `parse_stmt → parse_expr`, immediately recurses into children), so any
budget at least the tree size makes the embedding agree with the source.
Rust panics are modelled as `Err.panic`.  The `println!` diagnostics that
accompany the two fallback arms are side effects with no bearing on the
returned AST and are not modelled.

The body of the `for statement in statements` loop of `parse_statements` is
factored out as `parse_stmt`; the two textually identical `parse_args`
closures (in `parse_statements` and `parse_path`) are embedded once as
`parse_arg`; `parse_native_prop` is the closure of the same name; the
`values`/`operators` accumulation loop of `parse_expr` is
`parse_expr_items`; and the `map(...).collect()` calls over child iterators
are the explicit list recursions `parse_paths`, `parse_args_list`,
`parse_exprs`, `parse_macro_args`, `parse_obj_props`, and
`parse_native_props`. -/

mutual

/-- `parser.rs::parse_statements`. -/
def parse_statements : Nat → List ParseNode → Except Err (List Statement)
  | 0, _ => .error .outOfFuel
  | _ + 1, [] => .ok []
  | fuel + 1, s :: rest => do
      let st ← parse_stmt fuel s
      let sts ← parse_statements fuel rest
      .ok (st :: sts)

/-- The body of the statement loop in `parser.rs::parse_statements`. -/
def parse_stmt : Nat → ParseNode → Except Err Statement
  | 0, _ => .error .outOfFuel
  | fuel + 1, stmt =>
    match stmt.rule with
    | .defn =>
      match stmt.children with
      | [] => .error (.panic unwrapMsg)
      | first :: rest =>
        match first.rule with
        | .expr => do
            let v ← parse_expr fuel first
            let props ← parse_native_props fuel rest
            .ok (.Definition "*" v props)
        | .symbol =>
            match rest with
            | [] => .error (.panic unwrapMsg)
            | vnode :: props => do
                let v ← parse_expr fuel vnode
                let ps ← parse_native_props fuel props
                .ok (.Definition first.text v ps)
        | _ => .error (.panic unreachableMsg)
    | .call =>
      match stmt.children with
      | [] => .error (.panic unwrapMsg)
      | f :: _ => do
          let v ← parse_variable fuel f
          .ok (.Call v)
    | .if_stmt =>
      match stmt.children with
      | c :: b :: rest => do
          let cond ← parse_expr fuel c
          let if_body ← parse_statements fuel b.children
          match rest with
          | [] => .ok (.If cond if_body none)
          | e :: _ => do
              let else_body ← parse_statements fuel e.children
              .ok (.If cond if_body (some else_body))
      | _ => .error (.panic unwrapMsg)
    | .add_obj =>
      match stmt.children with
      | [] => .error (.panic unwrapMsg)
      | c :: _ => do
          let e ← parse_expr fuel c
          .ok (.Add e)
    | .implement =>
      match stmt.children with
      | v :: m :: _ => do
          let sv ← parse_variable fuel v
          let ms ← parse_statements fuel m.children
          .ok (.Impl sv ms)
      | _ => .error (.panic unwrapMsg)
    | .expr => do
        let e ← parse_expr fuel stmt
        .ok (.Expr e)
    | .retrn =>
      match stmt.children with
      | [] => .ok (.Return nullExpr)
      | e :: _ => do
          let ex ← parse_expr fuel e
          .ok (.Return ex)
    | .EOI => .ok .EOI
    | _ => .ok .EOI   -- `_ =>` fallback: notice printed, `Statement::EOI` placeholder

/-- `parser.rs::parse_expr`. -/
def parse_expr : Nat → ParseNode → Except Err Expression
  | 0, _ => .error .outOfFuel
  | fuel + 1, pair => do
      let (values, operators) ← parse_expr_items fuel pair.children
      .ok (.mk values operators)

/-- The `for item in pair.into_inner()` loop of `parse_expr`: an operator
child extends `operators`, every other child is parsed as a `Variable` and
extends `values`. -/
def parse_expr_items : Nat → List ParseNode → Except Err (List Variable × List String)
  | 0, _ => .error .outOfFuel
  | _ + 1, [] => .ok ([], [])
  | fuel + 1, item :: rest =>
      match item.rule with
      | .operator => do
          let (vs, ops) ← parse_expr_items fuel rest
          .ok (vs, item.text :: ops)
      | _ => do
          let v ← parse_variable fuel item
          let (vs, ops) ← parse_expr_items fuel rest
          .ok (v :: vs, ops)

/-- `parser.rs::parse_variable`. -/
def parse_variable : Nat → ParseNode → Except Err Variable
  | 0, _ => .error .outOfFuel
  | fuel + 1, pair =>
    match pair.children with
    | [] => .error (.panic unwrapMsg)
    | v :: rest => do
        let value ← parse_value fuel v
        let path ← parse_paths fuel rest
        .ok (.mk value path)

/-- `call_list.map(|x| parse_path(x)).collect()` in `parse_variable`. -/
def parse_paths : Nat → List ParseNode → Except Err (List Path)
  | 0, _ => .error .outOfFuel
  | _ + 1, [] => .ok []
  | fuel + 1, p :: rest => do
      let ph ← parse_path fuel p
      let ps ← parse_paths fuel rest
      .ok (ph :: ps)

/-- `parser.rs::parse_path`. -/
def parse_path : Nat → ParseNode → Except Err Path
  | 0, _ => .error .outOfFuel
  | fuel + 1, pair =>
    match pair.rule with
    | .symbol => .ok (.Member pair.text)
    | .index =>
      match pair.children with
      | [] => .error (.panic unwrapMsg)
      | c :: _ => do
          let e ← parse_expr fuel c
          .ok (.Index e)
    | .arguments => do
        let args ← parse_args_list fuel pair.children
        .ok (.Call args)
    | _ => .error (.panic unreachableMsg)

/-- The `parse_args` closure (identical in `parse_statements` and
`parse_path`): keyword argument when the first child is a symbol, positional
when it is an expression. -/
def parse_arg : Nat → ParseNode → Except Err Argument
  | 0, _ => .error .outOfFuel
  | fuel + 1, arg =>
    match arg.children with
    | [] => .error (.panic unwrapMsg)
    | first :: rest =>
      match first.rule with
      | .symbol =>
        match rest with
        | [] => .error (.panic unwrapMsg)
        | v :: _ => do
            let e ← parse_expr fuel v
            .ok (.mk (some first.text) e)
      | .expr => do
          let e ← parse_expr fuel first
          .ok (.mk none e)
      | _ => .error (.panic unreachableMsg)

/-- `.map(parse_args).collect()` over an argument-list node's children. -/
def parse_args_list : Nat → List ParseNode → Except Err (List Argument)
  | 0, _ => .error .outOfFuel
  | _ + 1, [] => .ok []
  | fuel + 1, a :: rest => do
      let x ← parse_arg fuel a
      let xs ← parse_args_list fuel rest
      .ok (x :: xs)

/-- The `parse_native_prop` closure in `parse_statements`: a property name
node followed by an argument-list node. -/
def parse_native_prop : Nat → ParseNode → Except Err (String × List Argument)
  | 0, _ => .error .outOfFuel
  | fuel + 1, prop =>
    match prop.children with
    | n :: a :: _ => do
        let args ← parse_args_list fuel a.children
        .ok (n.text, args)
    | _ => .error (.panic unwrapMsg)

/-- `inner.map(parse_native_prop).collect()` in the `Rule::def` arm. -/
def parse_native_props : Nat → List ParseNode → Except Err (List (String × List Argument))
  | 0, _ => .error .outOfFuel
  | _ + 1, [] => .ok []
  | fuel + 1, p :: rest => do
      let x ← parse_native_prop fuel p
      let xs ← parse_native_props fuel rest
      .ok (x :: xs)

/-- `parser.rs::parse_value` (the `fn parse_value` nested in
`parse_variable`). -/
def parse_value : Nat → ParseNode → Except Err ValueLiteral
  | 0, _ => .error .outOfFuel
  | fuel + 1, pair =>
    match pair.rule with
    | .id =>
      match pair.children with
      | [] => .error (.panic unwrapMsg)
      | first :: rest =>
        if first.rule = .number then
          match parseU16 first.text with
          | none => .error (.panic "invalid u16 literal")
          | some n =>
            match rest with
            | [] => .error (.panic unwrapMsg)
            | c :: _ => .ok (.ID n false c.text)
        else
          .ok (.ID 0 true first.text)
    | .macroDef =>
      match pair.children with
      | [] => .error (.panic unwrapMsg)
      | a :: rest => do
          let args ← parse_macro_args fuel a.children
          match rest with
          | [] => .error (.panic unwrapMsg)
          | b :: _ => do
              let body ← parse_statements fuel b.children
              .ok (.Macro' args body)
    | .number =>
      match parseF64 pair.text with
      | some q => .ok (.Number q)
      | none => .error (.panic "invalid number")
    | .bool => .ok (.Bool' (pair.text = "true"))
    | .dictionary => do
        let ms ← parse_statements fuel pair.children
        .ok (.Dictionary ms)
    | .cmp_stmt => do
        let ss ← parse_statements fuel pair.children
        .ok (.CmpStmt ss)
    | .obj => do
        let ps ← parse_obj_props fuel pair.children
        .ok (.Obj ps)
    | .value_literal =>
      match pair.children with
      | [] => .error (.panic unwrapMsg)
      | c :: _ => parse_value fuel c
    | .variable =>
      match pair.children with
      | [] => .error (.panic unwrapMsg)
      | c :: _ => parse_value fuel c
    | .expr => do
        let e ← parse_expr fuel pair
        .ok (.Expression' e)
    | .symbol => .ok (.Symbol pair.text)
    | .string => .ok (.Str (str_content pair.text))
    | .array => do
        let es ← parse_exprs fuel pair.children
        .ok (.Array' es)
    | .imp =>
      match pair.children with
      | [] => .error (.panic unwrapMsg)
      | c :: _ => .ok (.Import (str_content c.text))
    | _ => .ok (.Number 0)   -- `_ =>` fallback: notice printed, zero literal

/-- The macro-argument mapping in the `Rule::macro_def` arm: each argument
node yields its name and an optional default-value expression. -/
def parse_macro_args : Nat → List ParseNode → Except Err (List (String × Option Expression))
  | 0, _ => .error .outOfFuel
  | _ + 1, [] => .ok []
  | fuel + 1, arg :: rest =>
      match arg.children with
      | [] => .error (.panic unwrapMsg)
      | nm :: rest2 => do
          let d ← match rest2 with
            | [] => pure none
            | v :: _ => do
                let e ← parse_expr fuel v
                pure (some e)
          let others ← parse_macro_args fuel rest
          .ok ((nm.text, d) :: others)

/-- The object-property mapping in the `Rule::obj` arm: each property node
yields a key expression and a value expression. -/
def parse_obj_props : Nat → List ParseNode → Except Err (List (Expression × Expression))
  | 0, _ => .error .outOfFuel
  | _ + 1, [] => .ok []
  | fuel + 1, prop :: rest =>
      match prop.children with
      | k :: v :: _ => do
          let ke ← parse_expr fuel k
          let ve ← parse_expr fuel v
          let ps ← parse_obj_props fuel rest
          .ok ((ke, ve) :: ps)
      | _ => .error (.panic unwrapMsg)

/-- `pair.into_inner().map(|x| parse_expr(x)).collect()` in the
`Rule::array` arm. -/
def parse_exprs : Nat → List ParseNode → Except Err (List Expression)
  | 0, _ => .error .outOfFuel
  | _ + 1, [] => .ok []
  | fuel + 1, e :: rest => do
      let ex ← parse_expr fuel e
      let es ← parse_exprs fuel rest
      .ok (ex :: es)

end

/-! ## Tags (`ast.rs`) -/

/-- `ast.rs::Tag`: an ordered list of named property annotations; a list,
not a map — duplicate names are allowed. -/
structure Tag where
  tags : List (String × List Argument)

/-- The `for (key, args) in &self.tags` loop of `Tag::get`. -/
def Tag.getAux (t : String) : List (String × List Argument) → Option (List Argument)
  | [] => none
  | (key, args) :: rest => if t = key then some args else Tag.getAux t rest

/-- `ast.rs::Tag::get`: the argument list of the first entry named `t`. -/
def Tag.get (tag : Tag) (t : String) : Option (List Argument) :=
  Tag.getAux t tag.tags

/-! Rust's `format!("{:?}", ..)` on a `ValueLiteral` (derived `Debug`),
rendered constructor-by-constructor by `debugFmt` below.  Only the fact that
the fallback arm of `get_desc` returns this rendering matters to the claims;
the exact punctuation of the derived `Debug` output is immaterial and
mirrored only loosely. -/
mutual

def debugFmt : ValueLiteral → String
  | .ID n u c => "ID \x7b number: " ++ toString n ++ ", unspecified: " ++
      (if u then "true" else "false") ++ ", class_name: \"" ++ c ++ "\" \x7d"
  | .Number q => "Number(" ++ toString q ++ ")"
  | .CmpStmt ss => "CmpStmt(CompoundStatement \x7b statements: [" ++ fmtStmts ss ++ "] \x7d)"
  | .Dictionary ms => "Dictionary(Dictionary \x7b members: [" ++ fmtStmts ms ++ "] \x7d)"
  | .Symbol s => "Symbol(\"" ++ s ++ "\")"
  | .Bool' b => "Bool(" ++ (if b then "true" else "false") ++ ")"
  | .Expression' e => "Expression(" ++ fmtExpr e ++ ")"
  | .Str s => "Str(\"" ++ s ++ "\")"
  | .Import p => "Import(\"" ++ p ++ "\")"
  | .Array' es => "Array([" ++ fmtExprs es ++ "])"
  | .Obj ps => "Obj([" ++ fmtObjProps ps ++ "])"
  | .Macro' args body => "Macro \x7b args: [" ++ fmtMacroArgs args ++
      "], body: CompoundStatement \x7b statements: [" ++ fmtStmts body ++ "] \x7d \x7d"
  | .TypeIndicator s => "TypeIndicator(\"" ++ s ++ "\")"
  | .Null => "Null"

def fmtExpr : Expression → String
  | .mk vs ops =>
      "Expression \x7b values: [" ++ fmtVars vs ++ "], operators: [" ++
        String.intercalate ", " (ops.map (fun o => "\"" ++ o ++ "\"")) ++ "] \x7d"

def fmtVars : List Variable → String
  | [] => ""
  | [v] => fmtVar v
  | v :: vs => fmtVar v ++ ", " ++ fmtVars vs

def fmtVar : Variable → String
  | .mk v p => "Variable \x7b value: " ++ debugFmt v ++ ", path: [" ++ fmtPaths p ++ "] \x7d"

def fmtPaths : List Path → String
  | [] => ""
  | [p] => fmtPath p
  | p :: ps => fmtPath p ++ ", " ++ fmtPaths ps

def fmtPath : Path → String
  | .Member s => "Member(\"" ++ s ++ "\")"
  | .Index e => "Index(" ++ fmtExpr e ++ ")"
  | .Call args => "Call([" ++ fmtArgs args ++ "])"

def fmtArgs : List Argument → String
  | [] => ""
  | [a] => fmtArg a
  | a :: as' => fmtArg a ++ ", " ++ fmtArgs as'

def fmtArg : Argument → String
  | .mk s v =>
      "Argument \x7b symbol: " ++
        (match s with
          | some n => "Some(\"" ++ n ++ "\")"
          | none => "None") ++
        ", value: " ++ fmtExpr v ++ " \x7d"

def fmtExprs : List Expression → String
  | [] => ""
  | [e] => fmtExpr e
  | e :: es => fmtExpr e ++ ", " ++ fmtExprs es

def fmtObjProps : List (Expression × Expression) → String
  | [] => ""
  | [(k, v)] => "(" ++ fmtExpr k ++ ", " ++ fmtExpr v ++ ")"
  | (k, v) :: ps => "(" ++ fmtExpr k ++ ", " ++ fmtExpr v ++ "), " ++ fmtObjProps ps

def fmtMacroArgs : List (String × Option Expression) → String
  | [] => ""
  | [(n, d)] => "(\"" ++ n ++ "\", " ++ fmtOptExpr d ++ ")"
  | (n, d) :: rest => "(\"" ++ n ++ "\", " ++ fmtOptExpr d ++ "), " ++ fmtMacroArgs rest

def fmtOptExpr : Option Expression → String
  | none => "None"
  | some e => "Some(" ++ fmtExpr e ++ ")"

def fmtStmts : List Statement → String
  | [] => ""
  | [s] => fmtStmt s
  | s :: ss => fmtStmt s ++ ", " ++ fmtStmts ss

def fmtStmt : Statement → String
  | .Definition s v props =>
      "Definition(Definition \x7b symbol: \"" ++ s ++ "\", value: " ++ fmtExpr v ++
        ", props: [" ++ fmtProps props ++ "] \x7d)"
  | .Call f => "Call(Call \x7b function: " ++ fmtVar f ++ " \x7d)"
  | .If c b e =>
      "If(If \x7b condition: " ++ fmtExpr c ++ ", if_body: [" ++ fmtStmts b ++
        "], else_body: " ++
        (match e with
          | some ss => "Some([" ++ fmtStmts ss ++ "])"
          | none => "None") ++ " \x7d)"
  | .Add e => "Add(" ++ fmtExpr e ++ ")"
  | .Impl s ms =>
      "Impl(Implementation \x7b symbol: " ++ fmtVar s ++ ", members: [" ++
        fmtStmts ms ++ "] \x7d)"
  | .Expr e => "Expr(" ++ fmtExpr e ++ ")"
  | .Return e => "Return(" ++ fmtExpr e ++ ")"
  | .EOI => "EOI"

def fmtProps : List (String × List Argument) → String
  | [] => ""
  | [(n, args)] => "(\"" ++ n ++ "\", [" ++ fmtArgs args ++ "])"
  | (n, args) :: rest =>
      "(\"" ++ n ++ "\", [" ++ fmtArgs args ++ "]), " ++ fmtProps rest

end

/-- `ast.rs::Tag::get_desc`: `None` without a `"desc"` entry or with an
empty argument list; otherwise inspects `args[0].value.values[0].value`
(the second index is unguarded — an empty operand list panics), returning
the string content of a string literal and a `format!("{:?}", ..)` rendering
of anything else. -/
def Tag.get_desc (tag : Tag) : Except Err (Option String) :=
  match tag.get "desc" with
  | some args =>
    match args with
    | [] => .ok none
    | a0 :: _ =>
      match a0.value.values with
      | [] => .error (.panic "index out of bounds: the len is 0 but the index is 0")
      | v0 :: _ =>
        match v0.value with
        | .Str s => .ok (some s)
        | a => .ok (some (debugFmt a))
  | none => .ok none

/-! ## Grammar-shape well-formedness

`Modelled from the spec:` the lexical grammar (`spwn.pest`) is not among the
sources; only its observable guarantees, as stated in the specification, are
modelled.  `WF` says a parse tree has the shapes the external grammar
produces: an expression node's children alternate operand / operator
beginning and ending with an operand (spec: each precedence tier's rule
produces a flat chain; an Expression "always has at least one operand and
never a dangling operator"); positions handed to expression parsing hold
expression-rule nodes; a handle-id node is `number class` or a sole class
child (spec §4.2); numeric-literal text is digits with an optional
fractional part.  Rules the spec does not constrain are unconstrained. -/

mutual

/-- `value (operator value)*` alternation, entered at an operand. -/
def altVO : List ParseNode → Bool
  | [] => false
  | v :: rest => !(v.rule == .operator) && altOV rest

/-- `(operator value)*` alternation, entered at an operator. -/
def altOV : List ParseNode → Bool
  | [] => true
  | o :: rest => (o.rule == .operator) && altVO rest

end

/-- Numeric-literal token text: digits, optionally followed by `.` and more
digits. -/
def numberTextOK (t : String) : Bool :=
  match splitDot t.data with
  | [a] => !a.isEmpty && a.all Char.isDigit
  | [a, b] => (!a.isEmpty && a.all Char.isDigit) && (!b.isEmpty && b.all Char.isDigit)
  | _ => false

/-- The first child exists and is an expression node. -/
def headIsExpr : List ParseNode → Bool
  | [] => false
  | c :: _ => c.rule == .expr

/-- An argument node: a sole expression child, or a symbol child (the
keyword) followed by an expression child. -/
def argShape (n : ParseNode) : Bool :=
  match n.children with
  | [f] => f.rule == .expr
  | [f, v] => f.rule == .symbol && v.rule == .expr
  | _ => false

/-- A native-property node: a name child and an argument-list child. -/
def propShape (p : ParseNode) : Bool :=
  match p.children with
  | [_, a] => a.children.all argShape
  | _ => false

/-- A macro-parameter node: a name child, optionally followed by a
default-value expression child. -/
def macroArgShape (m : ParseNode) : Bool :=
  match m.children with
  | [_] => true
  | [_, d] => d.rule == .expr
  | _ => false

/-- An object-property node: a key expression child and a value expression
child. -/
def objPropShape (p : ParseNode) : Bool :=
  match p.children with
  | [k, v] => k.rule == .expr && v.rule == .expr
  | _ => false

/-- A definition node: a leading expression (destructuring form) or a symbol
followed by an expression, then native-property children. -/
def defShape : List ParseNode → Bool
  | [] => false
  | f :: rest =>
      if f.rule == .expr then rest.all propShape
      else if f.rule == .symbol then
        match rest with
        | v :: props => v.rule == .expr && props.all propShape
        | [] => false
      else false

/-- A handle-id node: a numeric-literal child (digit text) followed by the
class child, or a sole class child. -/
def idShape : List ParseNode → Bool
  | [n, c] => n.rule == .number && numberTextOK n.text && !(c.rule == .number)
  | [c] => !(c.rule == .number)
  | _ => false

/-- Per-rule child-shape constraints (see the section comment; spec-modelled). -/
def ruleShapeOK (r : Rule) (t : String) (cs : List ParseNode) : Bool :=
  match r with
  | .expr => altVO cs
  | .index =>
    match cs with
    | [e] => e.rule == .expr
    | _ => false
  | .arguments => cs.all argShape
  | .defn => defShape cs
  | .if_stmt => headIsExpr cs
  | .add_obj => headIsExpr cs
  | .retrn => cs.isEmpty || headIsExpr cs
  | .macroDef =>
    match cs with
    | a :: _ => a.children.all macroArgShape
    | [] => false
  | .obj => cs.all objPropShape
  | .array => cs.all (fun c => c.rule == .expr)
  | .id => idShape cs
  | .number => numberTextOK t
  | _ => true

mutual

/-- A parse tree the external grammar can produce (spec-modelled, see the
section comment): every node satisfies its rule's shape constraint,
recursively. -/
def WF : ParseNode → Bool
  | .mk r t cs => ruleShapeOK r t cs && WFlist cs

def WFlist : List ParseNode → Bool
  | [] => true
  | c :: cs => WF c && WFlist cs

end

/-! ## The balance invariant on the AST

`balExpr` states `len(values) == len(operators) + 1` for an expression and,
recursively, for every expression nested anywhere below it. -/

mutual

def balExpr : Expression → Bool
  | .mk vs ops => (vs.length == ops.length + 1) && balVars vs

def balVars : List Variable → Bool
  | [] => true
  | v :: vs => balVar v && balVars vs

def balVar : Variable → Bool
  | .mk v p => balVal v && balPaths p

def balPaths : List Path → Bool
  | [] => true
  | p :: ps => balPath p && balPaths ps

def balPath : Path → Bool
  | .Member _ => true
  | .Index e => balExpr e
  | .Call args => balArgs args

def balArgs : List Argument → Bool
  | [] => true
  | a :: rest => balArg a && balArgs rest

def balArg : Argument → Bool
  | .mk _ v => balExpr v

def balVal : ValueLiteral → Bool
  | .Expression' e => balExpr e
  | .CmpStmt ss => balStmts ss
  | .Dictionary ms => balStmts ms
  | .Array' es => balExprs es
  | .Obj ps => balObjProps ps
  | .Macro' args body => balMacroArgs args && balStmts body
  | _ => true

def balExprs : List Expression → Bool
  | [] => true
  | e :: es => balExpr e && balExprs es

def balObjProps : List (Expression × Expression) → Bool
  | [] => true
  | (k, v) :: ps => balExpr k && balExpr v && balObjProps ps

def balMacroArgs : List (String × Option Expression) → Bool
  | [] => true
  | (_, none) :: rest => balMacroArgs rest
  | (_, some d) :: rest => balExpr d && balMacroArgs rest

def balStmts : List Statement → Bool
  | [] => true
  | s :: ss => balStmt s && balStmts ss

def balStmt : Statement → Bool
  | .Definition _ v props => balExpr v && balPropsList props
  | .Call f => balVar f
  | .If c b e =>
      balExpr c && balStmts b &&
        (match e with
          | none => true
          | some ss => balStmts ss)
  | .Add e => balExpr e
  | .Impl s ms => balVar s && balStmts ms
  | .Expr e => balExpr e
  | .Return e => balExpr e
  | .EOI => true

def balPropsList : List (String × List Argument) → Bool
  | [] => true
  | (_, args) :: rest => balArgs args && balPropsList rest

end

/-! ## Basic lemmas -/

@[simp] theorem ParseNode.rule_mk (r t cs) : (ParseNode.mk r t cs).rule = r := rfl
@[simp] theorem ParseNode.text_mk (r t cs) : (ParseNode.mk r t cs).text = t := rfl
@[simp] theorem ParseNode.children_mk (r t cs) :
    (ParseNode.mk r t cs).children = cs := rfl

@[simp] theorem Expression.values_mk (vs ops) : (Expression.mk vs ops).values = vs := rfl
@[simp] theorem Expression.operators_mk (vs ops) :
    (Expression.mk vs ops).operators = ops := rfl

@[simp] theorem Variable.value_mk (v p) : (Variable.mk v p).value = v := rfl
@[simp] theorem Variable.path_mk (v p) : (Variable.mk v p).path = p := rfl

@[simp] theorem Argument.symbol_mk (s v) : (Argument.mk s v).symbol = s := rfl
@[simp] theorem Argument.arg_value_mk (s v) : (Argument.mk s v).value = v := rfl

theorem bind_ok {α β : Type} (m : Except Err α) (k : α → Except Err β) (b : β) :
    (m >>= k) = .ok b ↔ ∃ a, m = .ok a ∧ k a = .ok b := by
  cases m <;> simp [Bind.bind, Except.bind]

theorem removeQuotes_eq_filter (cs : List Char) :
    removeQuotes cs = cs.filter (fun c => c ≠ '"') := by
  induction cs with
  | nil => rfl
  | cons c cs ih => by_cases h : c = '"' <;> simp [removeQuotes, h, ih]

theorem getAux_eq_find? (name : String) (l : List (String × List Argument)) :
    Tag.getAux name l = (l.find? (fun p => name == p.1)).map Prod.snd := by
  induction l with
  | nil => rfl
  | cons p rest ih =>
    obtain ⟨k, args⟩ := p
    by_cases h : name = k
    · subst h
      simp [Tag.getAux, List.find?]
    · have hb : (name == k) = false := beq_eq_false_iff_ne.mpr h
      simp [Tag.getAux, List.find?, h, hb, ih]

theorem getAux_mem {name : String} {args : List Argument}
    {l : List (String × List Argument)} (h : Tag.getAux name l = some args) :
    (name, args) ∈ l := by
  induction l with
  | nil => simp [Tag.getAux] at h
  | cons p rest ih =>
    obtain ⟨k, as'⟩ := p
    by_cases hk : name = k
    · subst hk
      simp [Tag.getAux] at h
      simp [h]
    · simp [Tag.getAux, hk] at h
      exact List.mem_cons_of_mem _ (ih h)

theorem foldl_digits (cs : List Char) (a : Nat) :
    List.foldl (fun a c => a * 10 + (c.toNat - 48)) a cs =
      a * 10 ^ cs.length + Nat.ofDigits 10 ((cs.map (fun c => c.toNat - 48)).reverse) := by
  induction cs generalizing a with
  | nil => simp [Nat.ofDigits]
  | cons c cs ih =>
    simp only [List.foldl, List.map, List.reverse_cons, List.length_cons]
    rw [ih, Nat.ofDigits_append]
    simp [Nat.ofDigits, pow_succ]
    ring

theorem digitsToNat_eq (cs : List Char) :
    digitsToNat cs = Nat.ofDigits 10 ((cs.map (fun c => c.toNat - 48)).reverse) := by
  simpa [digitsToNat] using foldl_digits cs 0

theorem parseU16_digits (s : String) (h1 : s.data ≠ [])
    (h2 : s.data.all Char.isDigit = true) :
    parseU16 s = if digitsToNat s.data ≤ 65535 then some (digitsToNat s.data) else none := by
  have hplus : s.data.head? ≠ some '+' := by
    cases hd : s.data with
    | nil => simp
    | cons c rest =>
      have hc : c.isDigit = true := by
        rw [hd] at h2
        simp [List.all_cons] at h2
        exact h2.1
      simp only [List.head?]
      intro he
      injection he with he
      rw [he] at hc
      simp [Char.isDigit] at hc
  have hne : s.data.isEmpty = false := by
    cases hd : s.data
    · exact absurd hd h1
    · rfl
  unfold parseU16
  rw [if_neg hplus]
  simp [hne, h2]

/-! ## Claim theorems -/

/-- C3: a handle-id literal whose first child is a numeric-literal rule
yields an ID with the parsed number, `unspecified = false`, and the
following child's text as the class; a handle-id literal whose first child
is not numeric yields number 0, `unspecified = true`, with that sole child
supplying the class text. -/
theorem C3 (fuel : Nat) (txt : String) (first c : ParseNode)
    (rest : List ParseNode) (k : Nat) :
    (first.rule = .number → parseU16 first.text = some k →
      parse_value (fuel + 1) (.mk .id txt (first :: c :: rest)) =
        .ok (.ID k false c.text)) ∧
    (first.rule ≠ .number →
      parse_value (fuel + 1) (.mk .id txt (first :: rest)) =
        .ok (.ID 0 true first.text)) := by
  constructor
  · intro h hp
    simp [parse_value, h, hp]
  · intro h
    simp [parse_value, h]

/-- Witness for C3: `10g` gives `{number: 10, unspecified: false, class
text: "g"}` and `?g` gives `{number: 0, unspecified: true, class text:
"g"}`. -/
theorem C3_witness :
    parse_value 1 (.mk .id "10g" [.mk .number "10" [], .mk (.other "cls") "g" []]) =
      .ok (.ID 10 false "g") ∧
    parse_value 1 (.mk .id "?g" [.mk (.other "cls") "g" []]) =
      .ok (.ID 0 true "g") :=
  ⟨(C3 0 "10g" (.mk .number "10" []) (.mk (.other "cls") "g" []) [] 10).1 rfl rfl,
   (C3 0 "?g" (.mk (.other "cls") "g" []) (.mk .number "0" []) [] 0).2 (by decide)⟩

/-- C5: an unrecognized statement-level rule-kind becomes a single `EOI`
placeholder statement in its position and the remaining statements are
parsed unaffected; an unrecognized value-literal rule-kind becomes the
numeric zero literal.  (The accompanying `println!` notices are side
effects outside the returned AST.) -/
theorem C5 (fuel : Nat) (nm txt : String) (cs rest : List ParseNode) :
    parse_statements (fuel + 1) (.mk (.other nm) txt cs :: rest) =
      (parse_statements fuel rest).map (fun ss => Statement.EOI :: ss) ∧
    parse_value (fuel + 1) (.mk (.other nm) txt cs) = .ok (.Number 0) := by
  constructor
  · cases fuel with
    | zero => rfl
    | succ f =>
      simp only [parse_statements, parse_stmt]
      cases h : parse_statements (f + 1) rest <;>
        simp [h, Bind.bind, Except.bind, Except.map]
  · rfl

/-- C6: `str_content` deletes every double-quote character anywhere in its
input and preserves all other characters in order; `"hello"` parses to
`Str("hello")`, and an embedded quote character is deleted rather than
preserved or unescaped. -/
theorem C6 (s txt : String) (fuel : Nat) :
    (str_content s).data = s.data.filter (fun c => c ≠ '"') ∧
    parse_value (fuel + 1) (.mk .string txt []) = .ok (.Str (str_content txt)) ∧
    parse_value (fuel + 1) (.mk .string "\"hello\"" []) = .ok (.Str "hello") ∧
    str_content "\"he\"llo\"" = "hello" := by
  refine ⟨?_, rfl, rfl, rfl⟩
  simp [str_content, removeQuotes_eq_filter]

/-- C7: `Tag::get` returns the argument list of the first entry with the
requested name (duplicates allowed, first match wins); `Tag::get_desc`
returns `None` without a `"desc"` entry or with an empty argument list,
the string content when the first argument's leading operand is a string
literal, and a debug rendering of that operand's value otherwise. -/
theorem C7 (t : Tag) (name : String) :
    (t.get name = (t.tags.find? (fun p => name == p.1)).map Prod.snd) ∧
    (t.get "desc" = none → t.get_desc = .ok none) ∧
    (t.get "desc" = some [] → t.get_desc = .ok none) ∧
    (∀ a0 rest v0 vs s, t.get "desc" = some (a0 :: rest) →
      a0.value.values = v0 :: vs → v0.value = .Str s →
      t.get_desc = .ok (some s)) ∧
    (∀ a0 rest v0 vs, t.get "desc" = some (a0 :: rest) →
      a0.value.values = v0 :: vs → (∀ s, v0.value ≠ .Str s) →
      t.get_desc = .ok (some (debugFmt v0.value))) := by
  refine ⟨getAux_eq_find? name t.tags, ?_, ?_, ?_, ?_⟩
  · intro h
    simp [Tag.get_desc, h]
  · intro h
    simp [Tag.get_desc, h]
  · intro a0 rest v0 vs s h1 h2 h3
    simp [Tag.get_desc, h1, h2, h3]
  · intro a0 rest v0 vs h1 h2 h3
    simp only [Tag.get_desc, h1, h2]

/-- Witness for C7: a tag whose `"desc"` entry's first argument is the
string literal `"d"` yields `Some "d"`; one whose first argument is `Null`
yields the debug rendering; a tag without `"desc"` yields `None`. -/
theorem C7_witness :
    Tag.get_desc ⟨[("desc", [.mk none (.mk [.mk (.Str "d") []] [])])]⟩ = .ok (some "d") ∧
    Tag.get_desc ⟨[("desc", [.mk none (.mk [.mk .Null []] [])])]⟩ =
      .ok (some (debugFmt .Null)) ∧
    Tag.get ⟨[("a", []), ("b", [.mk none (.mk [] [])]), ("b", [])]⟩ "b" =
      some [.mk none (.mk [] [])] ∧
    Tag.get_desc ⟨[("other", [])]⟩ = .ok none :=
  ⟨(C7 ⟨[("desc", [.mk none (.mk [.mk (.Str "d") []] [])])]⟩ "desc").2.2.2.1
      (.mk none (.mk [.mk (.Str "d") []] [])) [] (.mk (.Str "d") []) [] "d" rfl rfl rfl,
   (C7 ⟨[("desc", [.mk none (.mk [.mk .Null []] [])])]⟩ "desc").2.2.2.2
      (.mk none (.mk [.mk .Null []] [])) [] (.mk .Null []) [] rfl rfl
      (by intro s h; simp at h),
   by
    rw [(C7 ⟨[("a", []), ("b", [.mk none (.mk [] [])]), ("b", [])]⟩ "b").1]
    rfl,
   (C7 ⟨[("other", [])]⟩ "x").2.1 rfl⟩

/-- The parse tree of the postfix chain `foo.bar[0](x)`: a variable node
whose first child is the base symbol and whose remaining children are the
member, index, and argument-list siblings in written order. -/
def fooBarTree : ParseNode :=
  .mk .variable "foo.bar[0](x)"
    [.mk .symbol "foo" [],
     .mk .symbol "bar" [],
     .mk .index "[0]" [.mk .expr "0" [.mk .variable "0" [.mk .number "0" []]]],
     .mk .arguments "(x)"
       [.mk (.other "argument") "x"
         [.mk .expr "x" [.mk .variable "x" [.mk .symbol "x" []]]]]]

/-- The AST `foo.bar[0](x)` builds to. -/
def fooBarResult : Variable :=
  .mk (.Symbol "foo")
    [.Member "bar",
     .Index (.mk [.mk (.Number 0) []] []),
     .Call [.mk none (.mk [.mk (.Symbol "x") []] [])]]

/-- C4: variable parsing resolves the base value literal from the first
child and maps every remaining sibling, in order, to a Path entry — Member
for a bare identifier, Index for a bracketed sub-expression, Call for an
argument list — so `foo.bar[0](x)` yields base `Symbol "foo"` and path
`[Member "bar", Index (Number 0), Call [x]]` in written order. -/
theorem C4 (fuel : Nat) (r : Rule) (txt : String) (c p : ParseNode)
    (rest cs l : List ParseNode) (i : ParseNode) (v : ValueLiteral)
    (ps : List Path) :
    (parse_value fuel c = .ok v → parse_paths fuel rest = .ok ps →
      parse_variable (fuel + 1) (.mk r txt (c :: rest)) = .ok (.mk v ps)) ∧
    (parse_paths (fuel + 1) (p :: l) =
      (parse_path fuel p).bind (fun x => (parse_paths fuel l).map (x :: ·))) ∧
    (parse_path (fuel + 1) (.mk .symbol txt cs) = .ok (.Member txt)) ∧
    (parse_path (fuel + 1) (.mk .index txt (i :: cs)) =
      (parse_expr fuel i).map Path.Index) ∧
    (parse_path (fuel + 1) (.mk .arguments txt cs) =
      (parse_args_list fuel cs).map Path.Call) ∧
    (parse_variable 20 fooBarTree = .ok fooBarResult) := by
  refine ⟨?_, ?_, rfl, ?_, ?_, rfl⟩
  · intro h1 h2
    simp [parse_variable, h1, h2, Bind.bind, Except.bind]
  · simp only [parse_paths]
    cases h1 : parse_path fuel p <;>
      cases h2 : parse_paths fuel l <;>
        simp [h1, h2, Bind.bind, Except.bind, Except.map]
  · simp only [parse_path]
    cases h : parse_expr fuel i <;> simp [h, Bind.bind, Except.bind, Except.map]
  · simp only [parse_path]
    cases h : parse_args_list fuel cs <;> simp [h, Bind.bind, Except.bind, Except.map]

/-- Witness for C4: the fold equation applied at a concrete single-child
variable node. -/
theorem C4_witness :
    parse_value 3 (.mk .symbol "s" []) = .ok (.Symbol "s") ∧
    parse_paths 3 ([] : List ParseNode) = .ok [] ∧
    parse_variable 4 (.mk .variable "s" [.mk .symbol "s" []]) =
      .ok (.mk (.Symbol "s") []) :=
  ⟨rfl, rfl,
   (C4 3 .variable "s" (.mk .symbol "s" []) (.mk .symbol "s" []) [] [] []
      (.mk .symbol "s" []) (.Symbol "s") []).1 rfl rfl⟩

/-- A tokenizer-acceptable program (`70000g`, then end of input) on which
the tree builder itself panics: the handle-id's numeric text exceeds
`u16::MAX`, so the id arm's `parse().unwrap()` fails. -/
def overflowProgram : List ParseNode :=
  [.mk .expr "70000g"
     [.mk .variable "70000g"
       [.mk .id "70000g" [.mk .number "70000" [], .mk (.other "cls") "g" []]]],
   .mk .EOI "" []]

/-- C2 counterexample: the claim "for every parse tree the tokenizer does
accept, the tree-building pass never fails" is false — `overflowProgram`
satisfies the (spec-modelled) grammar shapes, yet `parse_statements`
aborts with a panic, so builder failure is a third fatal condition beyond
the two claimed. -/
theorem C2_counterexample :
    WFlist overflowProgram = true ∧
    parse_statements 9 overflowProgram = .error (.panic "invalid u16 literal") :=
  ⟨rfl, rfl⟩

/-- C2 amended: unreadable input and tokenizer rejection abort the run, and
the tree builder does not abort on unrecognized constructs (it degrades to
placeholders and continues) — but it is not total on tokenizer-accepted
trees: a handle-id literal whose numeric text exceeds 65535 makes the
builder itself panic, aborting with no AST. -/
theorem C2_amended :
    parse_statements 9 [.mk (.other "typedef") "t" [], .mk .EOI "" []] =
      .ok [.EOI, .EOI] ∧
    WFlist overflowProgram = true ∧
    parse_statements 9 overflowProgram = .error (.panic "invalid u16 literal") :=
  ⟨rfl, rfl, rfl⟩

/-- C8: a bare `return` produces `Return` of the implicit null expression —
one `Variable` whose value is `Null` with an empty path, and an empty
operator list — and `return e` produces `Return` of `e` parsed as an
expression. -/
theorem C8 (fuel : Nat) (txt : String) (e : ParseNode) (rest : List ParseNode) :
    parse_stmt (fuel + 1) (.mk .retrn txt []) = .ok (.Return nullExpr) ∧
    nullExpr = .mk [.mk .Null []] [] ∧
    parse_stmt (fuel + 1) (.mk .retrn txt (e :: rest)) =
      (parse_expr fuel e).map Statement.Return := by
  refine ⟨rfl, rfl, ?_⟩
  simp only [parse_stmt]
  cases h : parse_expr fuel e <;> simp [h, Bind.bind, Except.bind, Except.map]

/-- C9: `get_desc` indexes `args[0].value.values[0]` without a guard: when
every argument expression in the tag has at least one operand it cannot
panic, and a `"desc"` entry holding an argument with an empty operand list
makes it panic with an index-out-of-bounds. -/
theorem C9 :
    (∀ t : Tag, t.tags.all (fun e => e.2.all (fun a => !a.value.values.isEmpty)) = true →
      ∃ r, t.get_desc = .ok r) ∧
    Tag.get_desc ⟨[("desc", [.mk none (.mk [] [])])]⟩ =
      .error (.panic "index out of bounds: the len is 0 but the index is 0") := by
  constructor
  · intro t h
    unfold Tag.get_desc
    cases hg : t.get "desc" with
    | none => exact ⟨none, rfl⟩
    | some args =>
      cases args with
      | nil => exact ⟨none, rfl⟩
      | cons a0 rest =>
        have hmem : ("desc", a0 :: rest) ∈ t.tags := getAux_mem hg
        have hall := (List.all_eq_true.mp h) _ hmem
        have ha0 : (!a0.value.values.isEmpty) = true := by
          have := (List.all_eq_true.mp hall) a0 (by simp)
          simpa using this
        cases hv : a0.value.values with
        | nil => simp [hv] at ha0
        | cons v0 vs =>
          simp only [hv]
          cases v0.value <;> exact ⟨_, rfl⟩
  · rfl

/-- Witness for C9: the totality half applied to a concrete tag all of
whose argument expressions have an operand. -/
theorem C9_witness :
    (Tag.tags ⟨[("desc", [.mk none (.mk [.mk .Null []] [])])]⟩).all
        (fun e => e.2.all (fun a => !a.value.values.isEmpty)) = true ∧
    ∃ r, Tag.get_desc ⟨[("desc", [.mk none (.mk [.mk .Null []] [])])]⟩ = .ok r :=
  ⟨rfl, C9.1 ⟨[("desc", [.mk none (.mk [.mk .Null []] [])])]⟩ rfl⟩

/-- C10: a handle-id's stored number is parsed as an unsigned 16-bit
integer: for digit text denoting `v`, building yields exactly `v` when
`v ≤ 65535` and panics (no truncated ID) when `v > 65535`. -/
theorem C10 (fuel : Nat) (txt : String) (nnode c : ParseNode)
    (rest : List ParseNode) (v : Nat)
    (hr : nnode.rule = .number)
    (hne : nnode.text.data ≠ [])
    (hdig : nnode.text.data.all Char.isDigit = true)
    (hv : v = Nat.ofDigits 10 ((nnode.text.data.map (fun ch => ch.toNat - 48)).reverse)) :
    (v ≤ 65535 →
      parse_value (fuel + 1) (.mk .id txt (nnode :: c :: rest)) =
        .ok (.ID v false c.text)) ∧
    (65535 < v →
      parse_value (fuel + 1) (.mk .id txt (nnode :: c :: rest)) =
        .error (.panic "invalid u16 literal")) := by
  have hvd : v = digitsToNat nnode.text.data := by rw [digitsToNat_eq, hv]
  have hp := parseU16_digits nnode.text hne hdig
  constructor
  · intro hle
    rw [hvd] at hle
    rw [if_pos hle] at hp
    simp [parse_value, hr, hp, hvd]
  · intro hgt
    rw [hvd] at hgt
    rw [if_neg (by omega)] at hp
    simp [parse_value, hr, hp]

/-- Witness for C10: `42g` builds the exact ID 42; `70000g` (out of `u16`
range) makes the builder's number parse fail. -/
theorem C10_witness :
    parse_value 1 (.mk .id "42g" [.mk .number "42" [], .mk (.other "cls") "g" []]) =
      .ok (.ID 42 false "g") ∧
    parse_value 1 (.mk .id "70000g" [.mk .number "70000" [], .mk (.other "cls") "g" []]) =
      .error (.panic "invalid u16 literal") :=
  ⟨(C10 0 "42g" (.mk .number "42" []) (.mk (.other "cls") "g" []) [] 42 rfl
      (by decide) rfl (by decide)).1 (by decide),
   (C10 0 "70000g" (.mk .number "70000" []) (.mk (.other "cls") "g" []) [] 70000 rfl
      (by decide) rfl (by decide)).2 (by decide)⟩

theorem WF_def (n : ParseNode) :
    WF n = (ruleShapeOK n.rule n.text n.children && WFlist n.children) := by
  cases n
  rfl

theorem WFlist_cons (c : ParseNode) (cs : List ParseNode) :
    WFlist (c :: cs) = (WF c && WFlist cs) := rfl

set_option maxHeartbeats 2000000

theorem balanced_sound : ∀ fuel : Nat,
    (∀ l ss, WFlist l = true → parse_statements fuel l = .ok ss → balStmts ss = true) ∧
    (∀ n s, WF n = true → parse_stmt fuel n = .ok s → balStmt s = true) ∧
    (∀ n e, WF n = true → n.rule = .expr → parse_expr fuel n = .ok e →
      balExpr e = true) ∧
    (∀ l vs ops, WFlist l = true → parse_expr_items fuel l = .ok (vs, ops) →
      balVars vs = true ∧ (altVO l = true → vs.length = ops.length + 1) ∧
      (altOV l = true → vs.length = ops.length)) ∧
    (∀ n v, WF n = true → parse_variable fuel n = .ok v → balVar v = true) ∧
    (∀ l ps, WFlist l = true → parse_paths fuel l = .ok ps → balPaths ps = true) ∧
    (∀ n p, WF n = true → parse_path fuel n = .ok p → balPath p = true) ∧
    (∀ n a, WF n = true → argShape n = true → parse_arg fuel n = .ok a →
      balArg a = true) ∧
    (∀ l as', WFlist l = true → l.all argShape = true →
      parse_args_list fuel l = .ok as' → balArgs as' = true) ∧
    (∀ n pr, WF n = true → propShape n = true → parse_native_prop fuel n = .ok pr →
      balArgs pr.2 = true) ∧
    (∀ l prs, WFlist l = true → l.all propShape = true →
      parse_native_props fuel l = .ok prs → balPropsList prs = true) ∧
    (∀ n w, WF n = true → parse_value fuel n = .ok w → balVal w = true) ∧
    (∀ l args, WFlist l = true → l.all macroArgShape = true →
      parse_macro_args fuel l = .ok args → balMacroArgs args = true) ∧
    (∀ l ps, WFlist l = true → l.all objPropShape = true →
      parse_obj_props fuel l = .ok ps → balObjProps ps = true) ∧
    (∀ l es, WFlist l = true → l.all (fun c => c.rule == Rule.expr) = true →
      parse_exprs fuel l = .ok es → balExprs es = true) := by
  intro fuel
  induction fuel with
  | zero =>
    refine ⟨?_, ?_, ?_, ?_, ?_, ?_, ?_, ?_, ?_, ?_, ?_, ?_, ?_, ?_, ?_⟩ <;>
      (intros; simp_all [parse_statements, parse_stmt, parse_expr,
        parse_expr_items, parse_variable, parse_paths, parse_path, parse_arg,
        parse_args_list, parse_native_prop, parse_native_props, parse_value,
        parse_macro_args, parse_obj_props, parse_exprs])
  | succ fuel IH =>
    obtain ⟨IHstmts, IHstmt, IHexpr, IHitems, IHvar, IHpaths, IHpath, IHarg,
      IHargs, IHprop, IHprops, IHval, IHmacro, IHobj, IHexprs⟩ := IH
    refine ⟨?_, ?_, ?_, ?_, ?_, ?_, ?_, ?_, ?_, ?_, ?_, ?_, ?_, ?_, ?_⟩
    -- parse_statements
    · intro l ss hWF hok
      cases l with
      | nil =>
        simp [parse_statements] at hok
        subst hok
        rfl
      | cons s rest =>
        simp only [parse_statements] at hok
        rw [bind_ok] at hok
        obtain ⟨st, hst, hok⟩ := hok
        rw [bind_ok] at hok
        obtain ⟨sts, hsts, hok⟩ := hok
        simp at hok
        subst hok
        rw [WFlist_cons] at hWF
        simp at hWF
        simp [balStmts, IHstmt s st hWF.1 hst, IHstmts rest sts hWF.2 hsts]
    -- parse_stmt
    · intro n s hWF hok
      have hWFn := hWF
      obtain ⟨r, t, cs⟩ := n
      rw [WF_def] at hWF
      simp only [ParseNode.rule_mk, ParseNode.text_mk, ParseNode.children_mk,
        Bool.and_eq_true] at hWF
      obtain ⟨hshape, hkids⟩ := hWF
      cases r
      case defn =>
        cases cs with
        | nil => simp [parse_stmt] at hok
        | cons first rest =>
          rw [WFlist_cons] at hkids
          simp only [Bool.and_eq_true] at hkids
          obtain ⟨hWFf, hWFrest⟩ := hkids
          simp only [ruleShapeOK] at hshape
          obtain ⟨fr, ft, fcs⟩ := first
          cases fr
          case expr =>
            simp only [parse_stmt, ParseNode.rule_mk, ParseNode.children_mk] at hok
            rw [bind_ok] at hok
            obtain ⟨v, hv, hok⟩ := hok
            rw [bind_ok] at hok
            obtain ⟨props, hp, hok⟩ := hok
            simp at hok
            subst hok
            simp [defShape] at hshape
            simp [balStmt, IHexpr _ v hWFf rfl hv,
              IHprops rest props hWFrest (List.all_eq_true.mpr hshape) hp]
          case symbol =>
            cases rest with
            | nil => simp [parse_stmt] at hok
            | cons vnode props =>
              simp only [parse_stmt, ParseNode.rule_mk, ParseNode.children_mk] at hok
              rw [bind_ok] at hok
              obtain ⟨v, hv, hok⟩ := hok
              rw [bind_ok] at hok
              obtain ⟨ps, hp, hok⟩ := hok
              simp at hok
              subst hok
              simp [defShape, beq_iff_eq] at hshape
              rw [WFlist_cons] at hWFrest
              simp only [Bool.and_eq_true] at hWFrest
              obtain ⟨hWFv, hWFps⟩ := hWFrest
              simp [balStmt, IHexpr vnode v hWFv hshape.1 hv,
                IHprops props ps hWFps (List.all_eq_true.mpr hshape.2) hp]
          all_goals simp [parse_stmt] at hok
      case call =>
        cases cs with
        | nil => simp [parse_stmt] at hok
        | cons f rest =>
          simp only [parse_stmt, ParseNode.rule_mk, ParseNode.children_mk] at hok
          rw [WFlist_cons] at hkids
          simp only [Bool.and_eq_true] at hkids
          rw [bind_ok] at hok
          obtain ⟨v, hv, hok⟩ := hok
          simp at hok
          subst hok
          simp [balStmt, IHvar f v hkids.1 hv]
      case if_stmt =>
        cases cs with
        | nil => simp [parse_stmt] at hok
        | cons c cs2 =>
          cases cs2 with
          | nil => simp [parse_stmt] at hok
          | cons b rest =>
            simp only [parse_stmt, ParseNode.rule_mk, ParseNode.children_mk] at hok
            simp only [ruleShapeOK, headIsExpr, beq_iff_eq] at hshape
            rw [WFlist_cons] at hkids
            rw [WFlist_cons] at hkids
            simp only [Bool.and_eq_true] at hkids
            obtain ⟨hWFc, hWFb, hWFrest⟩ := hkids
            rw [bind_ok] at hok
            obtain ⟨cond, hcond, hok⟩ := hok
            rw [bind_ok] at hok
            obtain ⟨ib, hib, hok⟩ := hok
            have hbk : WFlist (ParseNode.children b) = true := by
              have h2 := hWFb
              rw [WF_def] at h2
              simp only [Bool.and_eq_true] at h2
              exact h2.2
            cases rest with
            | nil =>
              simp at hok
              subst hok
              simp [balStmt, IHexpr c cond hWFc hshape hcond,
                IHstmts _ ib hbk hib]
            | cons e rest2 =>
              rw [WFlist_cons] at hWFrest
              simp only [Bool.and_eq_true] at hWFrest
              have hek : WFlist (ParseNode.children e) = true := by
                have h2 := hWFrest.1
                rw [WF_def] at h2
                simp only [Bool.and_eq_true] at h2
                exact h2.2
              rw [bind_ok] at hok
              obtain ⟨eb, heb, hok⟩ := hok
              simp at hok
              subst hok
              simp [balStmt, IHexpr c cond hWFc hshape hcond,
                IHstmts _ ib hbk hib, IHstmts _ eb hek heb]
      case add_obj =>
        cases cs with
        | nil => simp [parse_stmt] at hok
        | cons c rest =>
          simp only [parse_stmt, ParseNode.rule_mk, ParseNode.children_mk] at hok
          simp only [ruleShapeOK, headIsExpr, beq_iff_eq] at hshape
          rw [WFlist_cons] at hkids
          simp only [Bool.and_eq_true] at hkids
          rw [bind_ok] at hok
          obtain ⟨e, he, hok⟩ := hok
          simp at hok
          subst hok
          simp [balStmt, IHexpr c e hkids.1 hshape he]
      case implement =>
        cases cs with
        | nil => simp [parse_stmt] at hok
        | cons v cs2 =>
          cases cs2 with
          | nil => simp [parse_stmt] at hok
          | cons m rest =>
            simp only [parse_stmt, ParseNode.rule_mk, ParseNode.children_mk] at hok
            rw [WFlist_cons] at hkids
            rw [WFlist_cons] at hkids
            simp only [Bool.and_eq_true] at hkids
            obtain ⟨hWFv, hWFm, _⟩ := hkids
            have hmk : WFlist (ParseNode.children m) = true := by
              rw [WF_def] at hWFm
              simp only [Bool.and_eq_true] at hWFm
              exact hWFm.2
            rw [bind_ok] at hok
            obtain ⟨sv, hsv, hok⟩ := hok
            rw [bind_ok] at hok
            obtain ⟨ms, hms, hok⟩ := hok
            simp at hok
            subst hok
            simp [balStmt, IHvar v sv hWFv hsv, IHstmts _ ms hmk hms]
      case expr =>
        simp only [parse_stmt, ParseNode.rule_mk] at hok
        rw [bind_ok] at hok
        obtain ⟨e, he, hok⟩ := hok
        simp at hok
        subst hok
        simp [balStmt, IHexpr _ e hWFn rfl he]
      case retrn =>
        cases cs with
        | nil =>
          simp [parse_stmt] at hok
          subst hok
          rfl
        | cons e rest =>
          simp only [parse_stmt, ParseNode.rule_mk, ParseNode.children_mk] at hok
          simp only [ruleShapeOK, headIsExpr, List.isEmpty_cons, beq_iff_eq,
            Bool.false_or] at hshape
          rw [WFlist_cons] at hkids
          simp only [Bool.and_eq_true] at hkids
          rw [bind_ok] at hok
          obtain ⟨ex, hex, hok⟩ := hok
          simp at hok
          subst hok
          simp [balStmt, IHexpr e ex hkids.1 hshape hex]
      case EOI =>
        simp [parse_stmt] at hok
        subst hok
        rfl
      all_goals
        simp [parse_stmt] at hok <;> subst hok <;> rfl
    -- parse_expr
    · intro n e hWF hrule hok
      obtain ⟨r, t, cs⟩ := n
      simp only [ParseNode.rule_mk] at hrule
      subst hrule
      rw [WF_def] at hWF
      simp only [ParseNode.rule_mk, ParseNode.text_mk, ParseNode.children_mk,
        Bool.and_eq_true] at hWF
      obtain ⟨hshape, hkids⟩ := hWF
      simp only [ruleShapeOK] at hshape
      simp only [parse_expr, ParseNode.children_mk] at hok
      rw [bind_ok] at hok
      obtain ⟨⟨vs, ops⟩, hit, hok⟩ := hok
      simp at hok
      subst hok
      obtain ⟨hbal, hvo, -⟩ := IHitems cs vs ops hkids hit
      simp [balExpr, hbal, hvo hshape]
    -- parse_expr_items
    · intro l vs ops hWF hok
      cases l with
      | nil =>
        simp [parse_expr_items] at hok
        obtain ⟨h1, h2⟩ := hok
        subst h1
        subst h2
        refine ⟨rfl, ?_, fun _ => rfl⟩
        intro h
        simp [altVO] at h
      | cons item rest =>
        rw [WFlist_cons] at hWF
        simp only [Bool.and_eq_true] at hWF
        obtain ⟨hWFi, hWFrest⟩ := hWF
        obtain ⟨ir, it, ics⟩ := item
        cases ir
        case operator =>
          simp only [parse_expr_items, ParseNode.rule_mk, ParseNode.text_mk] at hok
          rw [bind_ok] at hok
          obtain ⟨⟨vs1, ops1⟩, hrest, hok⟩ := hok
          simp at hok
          obtain ⟨h1, h2⟩ := hok
          subst h1
          subst h2
          obtain ⟨hbal, hvo, hov⟩ := IHitems rest vs1 ops1 hWFrest hrest
          refine ⟨hbal, ?_, ?_⟩
          · intro h
            simp [altVO] at h
          · intro h
            simp [altOV] at h
            simp [hvo h]
        all_goals
          simp only [parse_expr_items, ParseNode.rule_mk] at hok
        all_goals
          rw [bind_ok] at hok
        all_goals
          obtain ⟨v, hv, hok⟩ := hok
        all_goals
          rw [bind_ok] at hok
        all_goals
          obtain ⟨⟨vs1, ops1⟩, hrest, hok⟩ := hok
        all_goals
          simp at hok
        all_goals
          obtain ⟨h1, h2⟩ := hok
        all_goals
          subst h1
        all_goals
          subst h2
        all_goals
          obtain ⟨hbal, hvo, hov⟩ := IHitems rest vs1 ops1 hWFrest hrest
        all_goals
          have hbv := IHvar _ v hWFi hv
        all_goals
          refine ⟨by simp [balVars, hbv, hbal], ?_, ?_⟩
        all_goals
          intro h
        all_goals
          first
            | (simp [altVO] at h
               simp [hov h])
            | simp [altOV] at h
    -- parse_variable
    · intro n v hWF hok
      obtain ⟨r, t, cs⟩ := n
      rw [WF_def] at hWF
      simp only [ParseNode.rule_mk, ParseNode.text_mk, ParseNode.children_mk,
        Bool.and_eq_true] at hWF
      obtain ⟨-, hkids⟩ := hWF
      cases cs with
      | nil => simp [parse_variable] at hok
      | cons c rest =>
        simp only [parse_variable, ParseNode.children_mk] at hok
        rw [WFlist_cons] at hkids
        simp only [Bool.and_eq_true] at hkids
        rw [bind_ok] at hok
        obtain ⟨val, hval, hok⟩ := hok
        rw [bind_ok] at hok
        obtain ⟨ps, hps, hok⟩ := hok
        simp at hok
        subst hok
        simp [balVar, IHval c val hkids.1 hval, IHpaths rest ps hkids.2 hps]
    -- parse_paths
    · intro l ps hWF hok
      cases l with
      | nil =>
        simp [parse_paths] at hok
        subst hok
        rfl
      | cons p rest =>
        simp only [parse_paths] at hok
        rw [WFlist_cons] at hWF
        simp only [Bool.and_eq_true] at hWF
        rw [bind_ok] at hok
        obtain ⟨ph, hph, hok⟩ := hok
        rw [bind_ok] at hok
        obtain ⟨pt, hpt, hok⟩ := hok
        simp at hok
        subst hok
        simp [balPaths, IHpath p ph hWF.1 hph, IHpaths rest pt hWF.2 hpt]
    -- parse_path
    · intro n p hWF hok
      obtain ⟨r, t, cs⟩ := n
      rw [WF_def] at hWF
      simp only [ParseNode.rule_mk, ParseNode.text_mk, ParseNode.children_mk,
        Bool.and_eq_true] at hWF
      obtain ⟨hshape, hkids⟩ := hWF
      cases r
      case symbol =>
        simp [parse_path] at hok
        subst hok
        rfl
      case index =>
        simp only [ruleShapeOK] at hshape
        cases cs with
        | nil => simp at hshape
        | cons c rest =>
          cases rest with
          | cons x xs => simp at hshape
          | nil =>
            simp at hshape
            simp only [parse_path, ParseNode.rule_mk, ParseNode.children_mk] at hok
            rw [WFlist_cons] at hkids
            simp only [Bool.and_eq_true] at hkids
            rw [bind_ok] at hok
            obtain ⟨e, he, hok⟩ := hok
            simp at hok
            subst hok
            simp [balPath, IHexpr c e hkids.1 hshape he]
      case arguments =>
        simp only [ruleShapeOK] at hshape
        simp only [parse_path, ParseNode.rule_mk, ParseNode.children_mk] at hok
        rw [bind_ok] at hok
        obtain ⟨args, hargs, hok⟩ := hok
        simp at hok
        subst hok
        simp [balPath, IHargs cs args hkids hshape hargs]
      all_goals simp [parse_path] at hok
    -- parse_arg
    · intro n a hWF hshp hok
      obtain ⟨r, t, cs⟩ := n
      rw [WF_def] at hWF
      simp only [ParseNode.rule_mk, ParseNode.text_mk, ParseNode.children_mk,
        Bool.and_eq_true] at hWF
      obtain ⟨-, hkids⟩ := hWF
      simp only [argShape, ParseNode.children_mk] at hshp
      cases cs with
      | nil => simp [parse_arg] at hok
      | cons first rest =>
        rw [WFlist_cons] at hkids
        simp only [Bool.and_eq_true] at hkids
        obtain ⟨hWFf, hWFrest⟩ := hkids
        obtain ⟨fr, ft, fcs⟩ := first
        cases fr
        case symbol =>
          cases rest with
          | nil => simp [parse_arg] at hok
          | cons vn rest2 =>
            cases rest2 with
            | cons x xs => simp at hshp
            | nil =>
              simp at hshp
              simp only [parse_arg, ParseNode.rule_mk, ParseNode.children_mk,
                ParseNode.text_mk] at hok
              rw [WFlist_cons] at hWFrest
              simp only [Bool.and_eq_true] at hWFrest
              rw [bind_ok] at hok
              obtain ⟨e, he, hok⟩ := hok
              simp at hok
              subst hok
              simp [balArg, IHexpr vn e hWFrest.1 hshp he]
        case expr =>
          simp only [parse_arg, ParseNode.rule_mk, ParseNode.children_mk] at hok
          rw [bind_ok] at hok
          obtain ⟨e, he, hok⟩ := hok
          simp at hok
          subst hok
          simp [balArg, IHexpr _ e hWFf rfl he]
        all_goals simp [parse_arg] at hok
    -- parse_args_list
    · intro l as' hWF hall hok
      cases l with
      | nil =>
        simp [parse_args_list] at hok
        subst hok
        rfl
      | cons a rest =>
        simp only [parse_args_list] at hok
        rw [WFlist_cons] at hWF
        simp only [Bool.and_eq_true] at hWF
        simp only [List.all_cons, Bool.and_eq_true] at hall
        rw [bind_ok] at hok
        obtain ⟨x, hx, hok⟩ := hok
        rw [bind_ok] at hok
        obtain ⟨xs, hxs, hok⟩ := hok
        simp at hok
        subst hok
        simp [balArgs, IHarg a x hWF.1 hall.1 hx, IHargs rest xs hWF.2 hall.2 hxs]
    -- parse_native_prop
    · intro n pr hWF hshp hok
      obtain ⟨r, t, cs⟩ := n
      rw [WF_def] at hWF
      simp only [ParseNode.rule_mk, ParseNode.text_mk, ParseNode.children_mk,
        Bool.and_eq_true] at hWF
      obtain ⟨-, hkids⟩ := hWF
      simp only [propShape, ParseNode.children_mk] at hshp
      cases cs with
      | nil => simp [parse_native_prop] at hok
      | cons n1 cs2 =>
        cases cs2 with
        | nil => simp [parse_native_prop] at hok
        | cons a2 rest =>
          cases rest with
          | cons x xs => simp at hshp
          | nil =>
            simp at hshp
            simp only [parse_native_prop, ParseNode.children_mk] at hok
            rw [WFlist_cons] at hkids
            rw [WFlist_cons] at hkids
            simp only [Bool.and_eq_true] at hkids
            obtain ⟨-, hWFa, -⟩ := hkids
            have hak : WFlist (ParseNode.children a2) = true := by
              rw [WF_def] at hWFa
              simp only [Bool.and_eq_true] at hWFa
              exact hWFa.2
            rw [bind_ok] at hok
            obtain ⟨args, hargs, hok⟩ := hok
            simp at hok
            subst hok
            simpa using IHargs _ args hak (List.all_eq_true.mpr hshp) hargs
    -- parse_native_props
    · intro l prs hWF hall hok
      cases l with
      | nil =>
        simp [parse_native_props] at hok
        subst hok
        rfl
      | cons p rest =>
        simp only [parse_native_props] at hok
        rw [WFlist_cons] at hWF
        simp only [Bool.and_eq_true] at hWF
        simp only [List.all_cons, Bool.and_eq_true] at hall
        rw [bind_ok] at hok
        obtain ⟨x, hx, hok⟩ := hok
        rw [bind_ok] at hok
        obtain ⟨xs, hxs, hok⟩ := hok
        simp at hok
        subst hok
        have h1 := IHprop p x hWF.1 hall.1 hx
        have h2 := IHprops rest xs hWF.2 hall.2 hxs
        obtain ⟨nm, args⟩ := x
        simp at h1
        simp [balPropsList, h1, h2]
    -- parse_value
    · intro n w hWF hok
      have hWFn := hWF
      obtain ⟨r, t, cs⟩ := n
      rw [WF_def] at hWF
      simp only [ParseNode.rule_mk, ParseNode.text_mk, ParseNode.children_mk,
        Bool.and_eq_true] at hWF
      obtain ⟨hshape, hkids⟩ := hWF
      cases r
      case id =>
        cases cs with
        | nil => simp [parse_value] at hok
        | cons first rest =>
          simp only [parse_value, ParseNode.rule_mk, ParseNode.text_mk, ParseNode.children_mk] at hok
          by_cases hfr : first.rule = Rule.number
          · rw [if_pos hfr] at hok
            cases hu : parseU16 first.text with
            | none =>
              rw [hu] at hok
              simp at hok
            | some k =>
              rw [hu] at hok
              cases rest with
              | nil => simp at hok
              | cons c2 rest2 =>
                simp at hok
                subst hok
                rfl
          · rw [if_neg hfr] at hok
            simp at hok
            subst hok
            rfl
      case macroDef =>
        cases cs with
        | nil => simp [parse_value] at hok
        | cons a rest =>
          cases rest with
          | nil =>
            simp only [parse_value, ParseNode.rule_mk, ParseNode.text_mk, ParseNode.children_mk] at hok
            rw [bind_ok] at hok
            obtain ⟨args, -, hok⟩ := hok
            simp at hok
          | cons b rest2 =>
            simp only [parse_value, ParseNode.rule_mk, ParseNode.text_mk, ParseNode.children_mk] at hok
            rw [bind_ok] at hok
            obtain ⟨args, hargs, hok⟩ := hok
            rw [bind_ok] at hok
            obtain ⟨body, hbody, hok⟩ := hok
            simp at hok
            subst hok
            simp only [ruleShapeOK] at hshape
            rw [WFlist_cons] at hkids
            rw [WFlist_cons] at hkids
            simp only [Bool.and_eq_true] at hkids
            obtain ⟨hWFa, hWFb, -⟩ := hkids
            have hak : WFlist (ParseNode.children a) = true := by
              rw [WF_def] at hWFa
              simp only [Bool.and_eq_true] at hWFa
              exact hWFa.2
            have hbk : WFlist (ParseNode.children b) = true := by
              rw [WF_def] at hWFb
              simp only [Bool.and_eq_true] at hWFb
              exact hWFb.2
            simp at hshape
            simp [balVal, IHmacro _ args hak (List.all_eq_true.mpr hshape) hargs,
              IHstmts _ body hbk hbody]
      case number =>
        simp only [parse_value, ParseNode.rule_mk, ParseNode.text_mk] at hok
        cases hq : parseF64 t with
        | none =>
          rw [hq] at hok
          simp at hok
        | some q =>
          rw [hq] at hok
          simp at hok
          subst hok
          rfl
      case bool =>
        simp [parse_value] at hok
        subst hok
        rfl
      case dictionary =>
        simp only [parse_value, ParseNode.rule_mk, ParseNode.text_mk, ParseNode.children_mk] at hok
        rw [bind_ok] at hok
        obtain ⟨ms, hms, hok⟩ := hok
        simp at hok
        subst hok
        simp [balVal, IHstmts cs ms hkids hms]
      case cmp_stmt =>
        simp only [parse_value, ParseNode.rule_mk, ParseNode.text_mk, ParseNode.children_mk] at hok
        rw [bind_ok] at hok
        obtain ⟨ss, hss, hok⟩ := hok
        simp at hok
        subst hok
        simp [balVal, IHstmts cs ss hkids hss]
      case obj =>
        simp only [ruleShapeOK] at hshape
        simp only [parse_value, ParseNode.rule_mk, ParseNode.text_mk, ParseNode.children_mk] at hok
        rw [bind_ok] at hok
        obtain ⟨ps, hps, hok⟩ := hok
        simp at hok
        subst hok
        simp [balVal, IHobj cs ps hkids hshape hps]
      case value_literal =>
        cases cs with
        | nil => simp [parse_value] at hok
        | cons c rest =>
          simp only [parse_value, ParseNode.rule_mk, ParseNode.text_mk, ParseNode.children_mk] at hok
          rw [WFlist_cons] at hkids
          simp only [Bool.and_eq_true] at hkids
          exact IHval c w hkids.1 hok
      case «variable» =>
        cases cs with
        | nil => simp [parse_value] at hok
        | cons c rest =>
          simp only [parse_value, ParseNode.rule_mk, ParseNode.text_mk, ParseNode.children_mk] at hok
          rw [WFlist_cons] at hkids
          simp only [Bool.and_eq_true] at hkids
          exact IHval c w hkids.1 hok
      case expr =>
        simp only [parse_value, ParseNode.rule_mk, ParseNode.text_mk, ParseNode.children_mk] at hok
        rw [bind_ok] at hok
        obtain ⟨e, he, hok⟩ := hok
        simp at hok
        subst hok
        simp [balVal, IHexpr _ e hWFn rfl he]
      case symbol =>
        simp [parse_value] at hok
        subst hok
        rfl
      case string =>
        simp [parse_value] at hok
        subst hok
        rfl
      case array =>
        simp only [ruleShapeOK] at hshape
        simp only [parse_value, ParseNode.rule_mk, ParseNode.text_mk, ParseNode.children_mk] at hok
        rw [bind_ok] at hok
        obtain ⟨es, hes, hok⟩ := hok
        simp at hok
        subst hok
        simp [balVal, IHexprs cs es hkids hshape hes]
      case imp =>
        cases cs with
        | nil => simp [parse_value] at hok
        | cons c rest =>
          simp [parse_value] at hok
          subst hok
          rfl
      all_goals
        simp [parse_value] at hok <;> subst hok <;> rfl
    -- parse_macro_args
    · intro l args hWF hall hok
      cases l with
      | nil =>
        simp [parse_macro_args] at hok
        subst hok
        rfl
      | cons arg rest =>
        rw [WFlist_cons] at hWF
        simp only [Bool.and_eq_true] at hWF
        obtain ⟨hWFarg, hWFrest⟩ := hWF
        simp only [List.all_cons, Bool.and_eq_true] at hall
        obtain ⟨hsh, hallrest⟩ := hall
        simp only [macroArgShape] at hsh
        cases hkc : arg.children with
        | nil =>
          simp [parse_macro_args, hkc] at hok
        | cons nm rest2 =>
          have hkids : WFlist (ParseNode.children arg) = true := by
            rw [WF_def] at hWFarg
            simp only [Bool.and_eq_true] at hWFarg
            exact hWFarg.2
          rw [hkc] at hkids
          rw [WFlist_cons] at hkids
          simp only [Bool.and_eq_true] at hkids
          obtain ⟨-, hkrest⟩ := hkids
          rw [hkc] at hsh
          cases rest2 with
          | nil =>
            simp only [parse_macro_args, hkc] at hok
            rw [bind_ok] at hok
            obtain ⟨d, hd, hok⟩ := hok
            rw [bind_ok] at hok
            obtain ⟨others, ho, hok⟩ := hok
            simp [pure, Except.pure] at hd
            simp at hok
            subst hd
            subst hok
            simp [balMacroArgs, IHmacro rest others hWFrest hallrest ho]
          | cons v rest3 =>
            cases rest3 with
            | cons x xs => simp at hsh
            | nil =>
              simp at hsh
              rw [WFlist_cons] at hkrest
              simp only [Bool.and_eq_true] at hkrest
              simp only [parse_macro_args, hkc] at hok
              rw [bind_ok] at hok
              obtain ⟨e, he, hok⟩ := hok
              rw [bind_ok] at hok
              obtain ⟨d, hd, hok⟩ := hok
              rw [bind_ok] at hok
              obtain ⟨others, ho, hok⟩ := hok
              simp [pure, Except.pure] at hd
              simp at hok
              subst hd
              subst hok
              simp [balMacroArgs, IHexpr v e hkrest.1 hsh he,
                IHmacro rest others hWFrest hallrest ho]
    -- parse_obj_props
    · intro l ps hWF hall hok
      cases l with
      | nil =>
        simp [parse_obj_props] at hok
        subst hok
        rfl
      | cons prop rest =>
        rw [WFlist_cons] at hWF
        simp only [Bool.and_eq_true] at hWF
        obtain ⟨hWFp, hWFrest⟩ := hWF
        simp only [List.all_cons, Bool.and_eq_true] at hall
        obtain ⟨hsh, hallrest⟩ := hall
        simp only [objPropShape] at hsh
        cases hkc : prop.children with
        | nil => simp [parse_obj_props, hkc] at hok
        | cons k cs2 =>
          cases cs2 with
          | nil =>
            rw [hkc] at hsh
            simp at hsh
          | cons v rest2 =>
            have hkids : WFlist (ParseNode.children prop) = true := by
              rw [WF_def] at hWFp
              simp only [Bool.and_eq_true] at hWFp
              exact hWFp.2
            rw [hkc] at hkids
            rw [WFlist_cons] at hkids
            rw [WFlist_cons] at hkids
            simp only [Bool.and_eq_true] at hkids
            obtain ⟨hWFk, hWFv, -⟩ := hkids
            rw [hkc] at hsh
            cases rest2 with
            | cons x xs => simp at hsh
            | nil =>
              simp at hsh
              simp only [parse_obj_props, hkc] at hok
              rw [bind_ok] at hok
              obtain ⟨ke, hke, hok⟩ := hok
              rw [bind_ok] at hok
              obtain ⟨ve, hve, hok⟩ := hok
              rw [bind_ok] at hok
              obtain ⟨pt, hpt, hok⟩ := hok
              simp at hok
              subst hok
              simp [balObjProps, IHexpr k ke hWFk hsh.1 hke,
                IHexpr v ve hWFv hsh.2 hve,
                IHobj rest pt hWFrest hallrest hpt]
    -- parse_exprs
    · intro l es hWF hall hok
      cases l with
      | nil =>
        simp [parse_exprs] at hok
        subst hok
        rfl
      | cons e rest =>
        simp only [parse_exprs] at hok
        rw [WFlist_cons] at hWF
        simp only [Bool.and_eq_true] at hWF
        simp only [List.all_cons, Bool.and_eq_true] at hall
        obtain ⟨h1, h2⟩ := hall
        simp only [beq_iff_eq] at h1
        rw [bind_ok] at hok
        obtain ⟨ex, hex, hok⟩ := hok
        rw [bind_ok] at hok
        obtain ⟨et, het, hok⟩ := hok
        simp at hok
        subst hok
        simp [balExprs, IHexpr e ex hWF.1 h1 hex, IHexprs rest et hWF.2 h2 het]

/-- The parse tree of the expression `1+2`: one precedence tier's chain of
operand, operator, operand. -/
def onePlusTwo : ParseNode :=
  .mk .expr "1+2"
    [.mk .variable "1" [.mk .number "1" []],
     .mk .operator "+" [],
     .mk .variable "2" [.mk .number "2" []]]

/-- C1: for every expression node of a parse tree the external grammar can
produce, expression parsing yields an Expression whose operand count equals
its operator count plus one, and this holds recursively for every expression
nested anywhere inside any operand (`balExpr`). -/
theorem C1 (fuel : Nat) (n : ParseNode) (e : Expression)
    (hWF : WF n = true) (hr : n.rule = .expr)
    (hok : parse_expr fuel n = .ok e) : balExpr e = true :=
  (balanced_sound fuel).2.2.1 n e hWF hr hok

/-- Witness for C1: the balance invariant holds on the parse of `1+2`. -/
theorem C1_witness :
    WF onePlusTwo = true ∧ onePlusTwo.rule = .expr ∧
    parse_expr 9 onePlusTwo =
      .ok (.mk [.mk (.Number 1) [], .mk (.Number 2) []] ["+"]) ∧
    balExpr (.mk [.mk (.Number 1) [], .mk (.Number 2) []] ["+"]) = true :=
  ⟨rfl, rfl, rfl,
   C1 9 onePlusTwo (.mk [.mk (.Number 1) [], .mk (.Number 2) []] ["+"]) rfl rfl rfl⟩

end Spwn
